import Mathlib

/-!
Verification of the POW-supplay acoustic covert-channel transmitter.

Shallow embedding of the C sources:
- `src/transmitter/main.c` (tone generation, FSK framing, CLI entry point)
- `src/transmitter/modulation.c` (CRC-8, Manchester, Hamming(7,4), Gray)
- `src/transmitter/ofdm_transmitter.c` (OFDM frame transmission)
- `src/transmitter/wav_player.c` (sample-to-core-count mapping)

Bytes are modelled as `Nat` values below 256; C `uint8_t` truncation is
rendered as `&&& 0xFF`.  Side-effecting operations are modelled as pure
functions that return the trace of oscillator invocations (or an effect
record), in the order the C code performs them.
-/

set_option maxRecDepth 40000

/-! ## CRC-8 (modulation.c lines 40-64, main.c lines 199-214)

The C loop body is
`crc ^= data[i]; for j in 0..7: crc = (crc & 0x80) ? (crc << 1) ^ 0x07 : crc << 1;`
on a `uint8_t` accumulator. -/

/-- One shift/XOR step of the CRC-8 inner loop (`crc` is the `uint8_t`
accumulator; the `&&& 0xFF` is the `uint8_t` truncation on assignment). -/
def crc8_step (crc : Nat) : Nat :=
  if crc &&& 0x80 ≠ 0 then ((crc <<< 1) ^^^ 0x07) &&& 0xFF
  else (crc <<< 1) &&& 0xFF

/-- Processing of one input byte: XOR the byte into the accumulator, then
8 shift/XOR steps. -/
def crc8_update (crc b : Nat) : Nat :=
  crc8_step^[8] (crc ^^^ b)

/-- `calculate_crc8`: initial value 0x00, one `crc8_update` per input byte. -/
def calculate_crc8 (data : List Nat) : Nat :=
  data.foldl crc8_update 0x00

/-- `verify_crc8` (modulation.c line 61): recompute and compare. -/
def verify_crc8 (data : List Nat) (expected_crc : Nat) : Bool :=
  calculate_crc8 data == expected_crc

/-! Reference CRC-8 following the specification's words (spec.md section 4.2):
"standard bit-serial CRC-8 with polynomial 0x07, initial value 0x00,
processing one input bit per iteration per byte (8 shift/XOR steps each),
most-significant-bit-first polynomial division".  Written independently of
the source embedding (arithmetic `2 * crc % 256` form, explicit recursion)
to be compared with `calculate_crc8`. -/

/-- Reference single step: MSB-first polynomial division by 0x07 on an
8-bit accumulator. -/
def crc8_spec_step (crc : Nat) : Nat :=
  if 128 ≤ crc then (2 * crc) % 256 ^^^ 7 else (2 * crc) % 256

/-- Reference: `j` shift/XOR steps. -/
def crc8_spec_steps : Nat → Nat → Nat
  | 0, crc => crc
  | j + 1, crc => crc8_spec_steps j (crc8_spec_step crc)

/-- Reference: fold a byte list into the accumulator, XORing each byte in
and then performing 8 steps. -/
def crc8_spec_fold : List Nat → Nat → Nat
  | [], crc => crc
  | b :: rest, crc => crc8_spec_fold rest (crc8_spec_steps 8 (crc ^^^ b))

/-- Reference CRC-8 of a byte sequence, initial value 0x00. -/
def crc8_reference (data : List Nat) : Nat :=
  crc8_spec_fold data 0

/-! ## Oscillator Engine and FSK layer (main.c)

`generate_tone` is the Oscillator Engine entry point.  Its observable
protocol behaviour is the sequence of tones it plays; we record each
successful invocation as a `ToneCall`.  An invalid frequency makes
`generate_tone` return before any barrier/thread work, producing no call. -/

/-- `validate_frequency` (main.c line 246): `MIN_FREQ = 20`, `MAX_FREQ = 24000`. -/
def validate_frequency (freq : Int) : Bool :=
  20 ≤ freq && freq ≤ 24000

/-- FSK modulation parameters (main.c lines 48-52). -/
structure fsk_params_t where
  freq_0 : Int
  freq_1 : Int
  bit_duration_ms : Int
deriving DecidableEq

/-- One invocation of the Oscillator Engine (one `generate_tone` call that
passes frequency validation). -/
structure ToneCall where
  freq : Int
  duration_ms : Int
  num_cores : Int
deriving DecidableEq

/-- Trace of Oscillator Engine invocations made by one `generate_tone` call
(main.c lines 109-173): an invalid frequency is rejected before any work. -/
def generate_tone_calls (freq duration_ms num_cores : Int) : List ToneCall :=
  if validate_frequency freq then [⟨freq, duration_ms, num_cores⟩] else []

/-- `transmit_bit_fsk` (main.c lines 178-181):
`freq = bit ? freq_1 : freq_0; generate_tone(freq, bit_duration_ms, num_cores)`. -/
def transmit_bit_fsk (bit : Nat) (params : fsk_params_t) (num_cores : Int) : List ToneCall :=
  generate_tone_calls (if bit ≠ 0 then params.freq_1 else params.freq_0)
    params.bit_duration_ms num_cores

/-- MSB-first bits of a byte, as produced by `for (i = 7; i >= 0; i--) (b >> i) & 1`. -/
def byte_bits_msb (b : Nat) : List Nat :=
  (List.range 8).reverse.map (fun i => (b >>> i) &&& 1)

/-- `transmit_preamble` (main.c lines 186-194): the byte 0xAA, MSB first. -/
def transmit_preamble (params : fsk_params_t) (num_cores : Int) : List ToneCall :=
  ((byte_bits_msb 0xAA).map (fun bit => transmit_bit_fsk bit params num_cores)).flatten

/-- `transmit_data_fsk` (main.c lines 219-241): preamble, then each payload
byte MSB-first, then the CRC-8 of the payload MSB-first. -/
def transmit_data_fsk (data : List Nat) (params : fsk_params_t) (num_cores : Int) :
    List ToneCall :=
  transmit_preamble params num_cores
    ++ (data.map (fun byte =>
          ((byte_bits_msb byte).map (fun bit => transmit_bit_fsk bit params num_cores)).flatten)).flatten
    ++ ((byte_bits_msb (calculate_crc8 data)).map
          (fun bit => transmit_bit_fsk bit params num_cores)).flatten

/-! ## Manchester line coding (modulation.c lines 102-157) -/

/-- Inner loop of `manchester_encode` for one byte: bits MSB-first, bit 1
becomes the symbol `10`, bit 0 the symbol `01`.  `r + 1` remaining
iterations means the current bit index is `r` (the C loop runs
`bit = 7 .. 0`). -/
def manchester_encode_bits (byte : Nat) : Nat → Nat → Nat
  | 0, encoded => encoded
  | r + 1, encoded =>
    manchester_encode_bits byte r
      ((encoded <<< 2) ||| (if (byte >>> r) &&& 1 = 1 then 2 else 1))

/-- The two output bytes `manchester_encode` stores for one input byte
(big-endian halves of the 16-bit encoded word). -/
def manchester_encode_byte (b : Nat) : List Nat :=
  [(manchester_encode_bits b 8 0 >>> 8) &&& 0xFF, manchester_encode_bits b 8 0 &&& 0xFF]

/-- `manchester_encode` over a byte sequence. -/
def manchester_encode (input : List Nat) : List Nat :=
  (input.map manchester_encode_byte).flatten

/-- Inner loop of `manchester_decode` for one 16-bit word: the C loop reads
symbol `j` at shift `14 - 2*j` for `j = 0 .. 7`; with `r + 1` remaining
iterations the shift is `2*r`.  Symbol `10` yields bit 1, `01` bit 0,
anything else is a decode error. -/
def manchester_decode_bits (encoded : Nat) : Nat → Nat → Option Nat
  | 0, decoded => some decoded
  | r + 1, decoded =>
    if (encoded >>> (2 * r)) &&& 3 = 2 then
      manchester_decode_bits encoded r ((decoded <<< 1) ||| 1)
    else if (encoded >>> (2 * r)) &&& 3 = 1 then
      manchester_decode_bits encoded r (decoded <<< 1)
    else none

/-- Decode one pair of input bytes (`encoded = (input[i] << 8) | input[i+1]`). -/
def manchester_decode_pair (hi lo : Nat) : Option Nat :=
  manchester_decode_bits ((hi <<< 8) ||| lo) 8 0

/-- The decode loop over successive byte pairs. -/
def manchester_decode_go : List Nat → Option (List Nat)
  | [] => some []
  | [_] => none
  | hi :: lo :: rest =>
    match manchester_decode_pair hi lo with
    | none => none
    | some d =>
      match manchester_decode_go rest with
      | none => none
      | some ds => some (d :: ds)

/-- `manchester_decode` (modulation.c line 128): an odd input length is
rejected up front, then pairs are decoded in order. -/
def manchester_decode (input : List Nat) : Option (List Nat) :=
  if input.length % 2 ≠ 0 then none
  else manchester_decode_go input

/-! ## Hamming(7,4) (modulation.c lines 163-216) -/

/-- `hamming74_encode`: 4 data bits to 7 coded bits, parity equations
`p1 = d1^d2^d4`, `p2 = d1^d3^d4`, `p3 = d2^d3^d4`, layout
`p1 p2 d1 p3 d2 d3 d4` from bit 0 to bit 6. -/
def hamming74_encode (data : Nat) : Nat :=
  let d1 := (data >>> 0) &&& 1
  let d2 := (data >>> 1) &&& 1
  let d3 := (data >>> 2) &&& 1
  let d4 := (data >>> 3) &&& 1
  let p1 := d1 ^^^ d2 ^^^ d4
  let p2 := d1 ^^^ d3 ^^^ d4
  let p3 := d2 ^^^ d3 ^^^ d4
  (p1 <<< 0) ||| (p2 <<< 1) ||| (d1 <<< 2) ||| (p3 <<< 3) |||
    (d2 <<< 4) ||| (d3 <<< 5) ||| (d4 <<< 6)

/-- `hamming74_decode`: recompute the syndrome, flip the bit it indexes
(if nonzero), then extract the data bits. -/
def hamming74_decode (encoded : Nat) : Nat :=
  let p1 := (encoded >>> 0) &&& 1
  let p2 := (encoded >>> 1) &&& 1
  let d1 := (encoded >>> 2) &&& 1
  let p3 := (encoded >>> 3) &&& 1
  let d2 := (encoded >>> 4) &&& 1
  let d3 := (encoded >>> 5) &&& 1
  let d4 := (encoded >>> 6) &&& 1
  let s1 := p1 ^^^ d1 ^^^ d2 ^^^ d4
  let s2 := p2 ^^^ d1 ^^^ d3 ^^^ d4
  let s3 := p3 ^^^ d2 ^^^ d3 ^^^ d4
  let syndrome := (s3 <<< 2) ||| (s2 <<< 1) ||| s1
  if syndrome ≠ 0 then
    let corrected := encoded ^^^ (1 <<< (syndrome - 1))
    let c1 := (corrected >>> 2) &&& 1
    let c2 := (corrected >>> 4) &&& 1
    let c3 := (corrected >>> 5) &&& 1
    let c4 := (corrected >>> 6) &&& 1
    (c4 <<< 3) ||| (c3 <<< 2) ||| (c2 <<< 1) ||| c1
  else
    (d4 <<< 3) ||| (d3 <<< 2) ||| (d2 <<< 1) ||| d1

/-! ## OFDM transmitter (ofdm_transmitter.c)

`transmit_ofdm_symbol` sets the per-subcarrier enable flags from the
symbol's bits (`transmitting[i] = (symbol >> i) & 1` for
`i < num_subcarriers && i < 8`), holds them for `symbol_duration_ms`, then
clears all `num_subcarriers` flags and holds the guard interval
(`GUARD_INTERVAL_MS = 10`).  A frame is the flat sequence of these
enable-flag phases. -/

/-- OFDM parameters (ofdm_transmitter.c lines 33-38). -/
structure ofdm_params_t where
  num_subcarriers : Int
  base_freq : Int
  freq_spacing : Int
  symbol_duration_ms : Int
deriving DecidableEq

/-- One phase of the enable-flag array: the per-subcarrier enables and how
long they are held. -/
structure SymbolPhase where
  enables : List Nat
  duration_ms : Int
deriving DecidableEq

/-- `transmit_ofdm_symbol` (ofdm_transmitter.c lines 159-182). -/
def transmit_ofdm_symbol (symbol : Nat) (params : ofdm_params_t) : List SymbolPhase :=
  [⟨(List.range (min params.num_subcarriers 8).toNat).map (fun i => (symbol >>> i) &&& 1),
      params.symbol_duration_ms⟩,
   ⟨(List.range params.num_subcarriers.toNat).map (fun _ => 0), 10⟩]

/-- `transmit_ofdm_frame` (ofdm_transmitter.c lines 187-230): the preamble
loop `for (i = 0; i < 4; i++) { symbol(0xAA); symbol(0x55); }`, one symbol
per payload byte, then the end-of-frame marker 0xFF, 0x00, 0xFF. -/
def transmit_ofdm_frame (data : List Nat) (params : ofdm_params_t) : List SymbolPhase :=
  ((List.range 4).map (fun _ =>
      transmit_ofdm_symbol 0xAA params ++ transmit_ofdm_symbol 0x55 params)).flatten
    ++ (data.map (fun b => transmit_ofdm_symbol b params)).flatten
    ++ transmit_ofdm_symbol 0xFF params ++ transmit_ofdm_symbol 0x00 params
    ++ transmit_ofdm_symbol 0xFF params

/-! ## `generate_tone` effect model (main.c lines 109-173)

Record of what one `generate_tone` call does besides playing the tone:
whether it returned at the frequency check, whether the two barriers were
initialized, the timing globals written, how many workers were spawned,
and how many control-loop iterations ran.  The wall clock is abstracted as
the sequence `elapsed k` of nanosecond readings the control loop observes
(nonnegative, as differences of a monotonic clock), and the loop is given
explicit fuel. -/

structure ToneRun where
  rejected : Bool
  barriers_created : Bool
  cycle_nano : Option Int
  half_cycle_nano : Option Int
  workers_spawned : Nat
  loop_iterations : Nat
deriving DecidableEq

/-- Control-loop iteration count: before each iteration the loop breaks
when the elapsed time has reached `duration_nano`. -/
def tone_loop_iters (elapsed : Nat → Nat) (duration_nano : Int) : Nat → Nat
  | 0 => 0
  | fuel + 1 =>
    if duration_nano ≤ (elapsed 0 : Int) then 0
    else tone_loop_iters (fun k => elapsed (k + 1)) duration_nano fuel + 1

/-- Effect model of `generate_tone`: only the frequency is validated; on
success the barriers are initialized, the timing globals written, and
`num_cores` workers spawned before the control loop runs. -/
def generate_tone_run (freq duration_ms num_cores : Int) (elapsed : Nat → Nat)
    (fuel : Nat) : ToneRun :=
  if validate_frequency freq then
    { rejected := false
      barriers_created := true
      cycle_nano := some (1000000000 / freq)
      half_cycle_nano := some (1000000000 / freq / 2)
      workers_spawned := num_cores.toNat
      loop_iterations := tone_loop_iters elapsed (duration_ms * 1000000) fuel }
  else
    { rejected := true
      barriers_created := false
      cycle_nano := none
      half_cycle_nano := none
      workers_spawned := 0
      loop_iterations := 0 }

/-! ## CLI entry point of the transmitter (main.c lines 279-362) -/

/-- Parsed command line of the transmitter binary. -/
inductive TransmitterArgs where
  | noArgs
  | toneBadArity
  | tone (freq duration_ms num_cores : Int)
  | fskBadArity
  | fsk (freq_0 freq_1 bit_duration_ms num_cores : Int) (message : List Nat)
  | wav
  | unknown
deriving DecidableEq

/-- Exit code and Oscillator Engine trace of the transmitter's `main`. -/
def transmitter_main : TransmitterArgs → Int × List ToneCall
  | .noArgs => (1, [])
  | .toneBadArity => (1, [])
  | .tone freq duration_ms num_cores =>
    if num_cores < 1 ∨ 32 < num_cores then (1, [])
    else (0, generate_tone_calls freq duration_ms num_cores)
  | .fskBadArity => (1, [])
  | .fsk f0 f1 bd cores msg =>
    if !validate_frequency f0 || !validate_frequency f1 then (1, [])
    else if cores < 1 ∨ 32 < cores then (1, [])
    else (0, transmit_data_fsk msg ⟨f0, f1, bd⟩ cores)
  | .wav => (1, [])
  | .unknown => (1, [])

/-! ## WAV player amplitude mapping (wav_player.c lines 258-296) -/

/-- `sample_to_cores`: `cores = abs(sample) * max_cores / 32768`, raised to
1 when 0 and clamped to `max_cores`.  The C `int` arithmetic is on
nonnegative values, modelled in `Nat`. -/
def sample_to_cores (sample : Int) (max_cores : Nat) : Nat :=
  let abs_sample := sample.natAbs
  let cores := abs_sample * max_cores / 32768
  let cores2 := if cores = 0 then 1 else cores
  if cores2 > max_cores then max_cores else cores2

/-- Per-sample active-core counts requested by the `play_wav_am` loop. -/
def play_wav_am_active_counts (samples : List Int) (num_cores : Nat) : List Nat :=
  samples.map (fun s => sample_to_cores s num_cores)

/-! ## Theorems -/

/-- Helper: xor of two bytes is a byte. -/
theorem xor_lt_256 {x y : Nat} (hx : x < 256) (hy : y < 256) : x ^^^ y < 256 := by
  have h256 : (256 : Nat) = 2 ^ 8 := by norm_num
  rw [h256] at hx hy ⊢
  exact Nat.xor_lt_two_pow hx hy

/-- Helper: `crc8_step` keeps the accumulator below 256. -/
theorem crc8_step_lt (c : Nat) : crc8_step c < 256 := by
  unfold crc8_step
  split
  · exact Nat.lt_succ_of_le (Nat.and_le_right)
  · exact Nat.lt_succ_of_le (Nat.and_le_right)

/-- Helper: the source step and the spec-reference step agree on bytes. -/
theorem crc8_step_agree : ∀ c < 256, crc8_spec_step c = crc8_step c := by decide

/-- Helper: the spec-reference steps equal iterated source steps on bytes. -/
theorem crc8_spec_steps_agree : ∀ (j : Nat) (c : Nat), c < 256 →
    crc8_spec_steps j c = crc8_step^[j] c := by
  intro j
  induction j with
  | zero => intro c _; rfl
  | succ j ih =>
    intro c hc
    rw [crc8_spec_steps, crc8_step_agree c hc, Function.iterate_succ_apply]
    exact ih _ (crc8_step_lt c)

/-- Helper: `crc8_update` keeps the accumulator below 256. -/
theorem crc8_update_lt (c b : Nat) : crc8_update c b < 256 := by
  unfold crc8_update
  rw [Function.iterate_succ_apply']
  exact crc8_step_lt _

/-- Helper: the reference fold equals the source fold on byte sequences. -/
theorem crc8_spec_fold_agree : ∀ (data : List Nat), (∀ b ∈ data, b < 256) →
    ∀ c : Nat, c < 256 → crc8_spec_fold data c = data.foldl crc8_update c := by
  intro data
  induction data with
  | nil => intro _ c _; rfl
  | cons b rest ih =>
    intro hb c hc
    have hblt : b < 256 := hb b (List.mem_cons_self b rest)
    rw [crc8_spec_fold, List.foldl_cons,
      crc8_spec_steps_agree 8 (c ^^^ b) (xor_lt_256 hc hblt)]
    exact ih (fun x hx => hb x (List.mem_cons_of_mem b hx)) _ (crc8_update_lt c b)

/-- C2: `calculate_crc8` is a pure function equal to the reference bit-serial
CRC-8 (polynomial 0x07, initial value 0x00, per byte: XOR into the
accumulator then 8 MSB-first shift/XOR steps), and for every byte sequence
`data`, `verify_crc8 data (calculate_crc8 data)` returns true. -/
theorem crc8_matches_reference_and_self_verifies :
    ∀ data : List Nat, (∀ b ∈ data, b < 256) →
      calculate_crc8 data = crc8_reference data ∧
        verify_crc8 data (calculate_crc8 data) = true := by
  intro data hdata
  constructor
  · rw [calculate_crc8, crc8_reference,
      crc8_spec_fold_agree data hdata 0 (by norm_num)]
  · simp [verify_crc8]

/-- Witness for C2 at the concrete payload "HI" = [0x48, 0x49]. -/
theorem crc8_matches_reference_witness :
    calculate_crc8 [0x48, 0x49] = crc8_reference [0x48, 0x49] ∧
      verify_crc8 [0x48, 0x49] (calculate_crc8 [0x48, 0x49]) = true :=
  crc8_matches_reference_and_self_verifies [0x48, 0x49] (by decide)

/-- Helper: xor is left-commutative on Nat. -/
theorem nat_xor_left_comm (a b c : Nat) : a ^^^ (b ^^^ c) = b ^^^ (a ^^^ c) := by
  rw [← Nat.xor_assoc, Nat.xor_comm a b, Nat.xor_assoc]

/-- Helper: shifting left by one distributes over xor. -/
theorem shiftLeft_one_xor (x y : Nat) : (x ^^^ y) <<< 1 = (x <<< 1) ^^^ (y <<< 1) := by
  apply Nat.eq_of_testBit_eq
  intro i
  by_cases hi : 1 ≤ i <;>
    simp [Nat.testBit_shiftLeft, Nat.testBit_xor, hi, Bool.and_comm]

/-- Helper: `crc8_step` in explicit affine normal form. -/
theorem crc8_step_normal (c : Nat) :
    crc8_step c = ((c <<< 1) &&& 255) ^^^ (if c &&& 128 = 0 then 0 else 7) := by
  unfold crc8_step
  by_cases h : c &&& 128 = 0
  · simp [h]
  · simp only [h, if_false, ne_eq, not_false_eq_true, if_true]
    rw [Nat.and_xor_distrib_right]
    congr 1

/-- Helper: the MSB mask of a byte accumulator is 0 or 128. -/
theorem and128_cases (c : Nat) : c &&& 128 = 0 ∨ c &&& 128 = 128 := by
  have h := Nat.and_two_pow c 7
  norm_num at h
  cases hb : c.testBit 7 <;> rw [hb] at h <;> simp at h <;> omega

/-- Helper: `crc8_step` is GF(2)-linear: it distributes over xor. -/
theorem crc8_step_xor (x y : Nat) :
    crc8_step (x ^^^ y) = crc8_step x ^^^ crc8_step y := by
  rw [crc8_step_normal x, crc8_step_normal y, crc8_step_normal (x ^^^ y),
    shiftLeft_one_xor, Nat.and_xor_distrib_right]
  have hxy : (x ^^^ y) &&& 128 = (x &&& 128) ^^^ (y &&& 128) :=
    Nat.and_xor_distrib_right
  rcases and128_cases x with hx | hx <;> rcases and128_cases y with hy | hy <;>
    simp [hxy, hx, hy, Nat.xor_assoc, Nat.xor_comm, nat_xor_left_comm,
      Nat.xor_cancel_left]

/-- Helper: iterated `crc8_step` distributes over xor. -/
theorem crc8_iter_xor (k x y : Nat) :
    crc8_step^[k] (x ^^^ y) = crc8_step^[k] x ^^^ crc8_step^[k] y := by
  induction k with
  | zero => rfl
  | succ k ih =>
    rw [Function.iterate_succ_apply', Function.iterate_succ_apply',
      Function.iterate_succ_apply', ih, crc8_step_xor]

/-- Helper: `crc8_step` maps nonzero bytes to nonzero bytes (the polynomial
0x107 has a nonzero constant term, so multiplication by x is injective). -/
theorem crc8_step_ne_zero : ∀ d < 256, d ≠ 0 → crc8_step d ≠ 0 := by decide

/-- Helper: iterated `crc8_step` preserves nonzero bytes. -/
theorem crc8_iter_ne_zero (k : Nat) :
    ∀ d, d < 256 → d ≠ 0 → crc8_step^[k] d ≠ 0 ∧ crc8_step^[k] d < 256 := by
  induction k with
  | zero => exact fun d hlt hne => ⟨hne, hlt⟩
  | succ k ih =>
    intro d hlt hne
    rw [Function.iterate_succ_apply']
    obtain ⟨ihne, ihlt⟩ := ih d hlt hne
    exact ⟨crc8_step_ne_zero _ ihlt ihne, crc8_step_lt _⟩

/-- Helper: an xor-difference `d` in the accumulator propagates through the
CRC fold as `crc8_step^[8 * length] d`. -/
theorem crc8_fold_xor (suf : List Nat) : ∀ c d : Nat,
    List.foldl crc8_update (c ^^^ d) suf =
      List.foldl crc8_update c suf ^^^ crc8_step^[8 * suf.length] d := by
  induction suf with
  | nil => intro c d; simp
  | cons b suf ih =>
    intro c d
    have hupd : crc8_update (c ^^^ d) b = crc8_update c b ^^^ crc8_step^[8] d := by
      unfold crc8_update
      rw [show (c ^^^ d) ^^^ b = (c ^^^ b) ^^^ d by
            rw [Nat.xor_assoc, Nat.xor_assoc, Nat.xor_comm d b],
        crc8_iter_xor]
    rw [List.foldl_cons, List.foldl_cons, hupd, ih,
      ← Function.iterate_add_apply, List.length_cons]
    ring_nf

/-- Helper: flipping one bit of one byte changes the CRC by a nonzero
xor-difference. -/
theorem crc8_set_xor (pre suf : List Nat) (b e : Nat) :
    calculate_crc8 (pre ++ (b ^^^ e) :: suf) =
      calculate_crc8 (pre ++ b :: suf) ^^^ crc8_step^[8 * suf.length + 8] e := by
  unfold calculate_crc8
  rw [List.foldl_append, List.foldl_append, List.foldl_cons, List.foldl_cons]
  have hupd : crc8_update (List.foldl crc8_update 0 pre) (b ^^^ e) =
      crc8_update (List.foldl crc8_update 0 pre) b ^^^ crc8_step^[8] e := by
    unfold crc8_update
    rw [← Nat.xor_assoc, crc8_iter_xor]
  rw [hupd, crc8_fold_xor, ← Function.iterate_add_apply]

/-- C6: CRC-8 with polynomial 0x07 detects all single-bit errors: for every
byte sequence and every single flipped bit (byte index `i`, bit index `j`),
the CRC of the modified sequence differs from the CRC of the original, so
`verify_crc8` of the modified data against the original CRC returns false. -/
theorem crc8_detects_single_bit_errors :
    ∀ (data : List Nat), (∀ b ∈ data, b < 256) →
    ∀ i, i < data.length → ∀ j, j < 8 →
      calculate_crc8 (data.set i (data.getD i 0 ^^^ 1 <<< j)) ≠ calculate_crc8 data ∧
        verify_crc8 (data.set i (data.getD i 0 ^^^ 1 <<< j))
          (calculate_crc8 data) = false := by
  intro data hdata i hi j hj
  have he2 : (1 : Nat) <<< j = 2 ^ j := by rw [Nat.shiftLeft_eq, one_mul]
  have helt : (1 : Nat) <<< j < 256 := by
    rw [he2]
    calc 2 ^ j ≤ 2 ^ 7 := Nat.pow_le_pow_right (by norm_num) (by omega)
    _ < 256 := by norm_num
  have hene : (1 : Nat) <<< j ≠ 0 := by
    rw [he2]; exact (Nat.two_pow_pos j).ne'
  have hset : data.set i (data.getD i 0 ^^^ 1 <<< j) =
      data.take i ++ (data.getD i 0 ^^^ 1 <<< j) :: data.drop (i + 1) :=
    List.set_eq_take_cons_drop _ hi
  have hsplit : data = data.take i ++ data.getD i 0 :: data.drop (i + 1) := by
    conv_lhs => rw [← List.take_append_drop i data]
    rw [List.drop_eq_getElem_cons hi, List.getD_eq_getElem data 0 hi]
  have herr := crc8_iter_ne_zero (8 * (data.drop (i + 1)).length + 8)
    (1 <<< j) helt hene
  have hkey : calculate_crc8 (data.set i (data.getD i 0 ^^^ 1 <<< j)) =
      calculate_crc8 data ^^^
        crc8_step^[8 * (data.drop (i + 1)).length + 8] (1 <<< j) := by
    rw [hset, crc8_set_xor, ← hsplit]
  have hne : calculate_crc8 (data.set i (data.getD i 0 ^^^ 1 <<< j)) ≠
      calculate_crc8 data := by
    rw [hkey]
    intro hcontra
    apply herr.1
    have : calculate_crc8 data ^^^
        crc8_step^[8 * (data.drop (i + 1)).length + 8] (1 <<< j) =
        calculate_crc8 data ^^^ 0 := by rw [Nat.xor_zero]; exact hcontra
    exact Nat.xor_right_inj.mp this
  exact ⟨hne, by rw [verify_crc8]; exact beq_eq_false_iff_ne.mpr hne⟩

/-- Witness for C6: flipping bit 0 of byte 0 of "HI" is detected. -/
theorem crc8_detects_single_bit_errors_witness :
    calculate_crc8 ([0x48, 0x49].set 0 ([0x48, 0x49].getD 0 0 ^^^ 1 <<< 0)) ≠
        calculate_crc8 [0x48, 0x49] ∧
      verify_crc8 ([0x48, 0x49].set 0 ([0x48, 0x49].getD 0 0 ^^^ 1 <<< 0))
        (calculate_crc8 [0x48, 0x49]) = false :=
  crc8_detects_single_bit_errors [0x48, 0x49] (by decide) 0 (by decide) 0 (by decide)

/-- C1: for the payload "HI" (0x48, 0x49) and FSK parameters whose two
frequencies pass validation, `transmit_data_fsk` invokes the Oscillator
Engine exactly 32 times: the 8 bits of the 0xAA preamble MSB-first, the 8
bits of 0x48, the 8 bits of 0x49, then the 8 bits of CRC-8(0x48, 0x49),
each invocation selecting `freq_1` for a 1 bit and `freq_0` for a 0 bit. -/
theorem transmit_frame_HI (p : fsk_params_t) (n : Int)
    (h0 : validate_frequency p.freq_0 = true)
    (h1 : validate_frequency p.freq_1 = true) :
    transmit_data_fsk [0x48, 0x49] p n =
      ([1, 0, 1, 0, 1, 0, 1, 0,
        0, 1, 0, 0, 1, 0, 0, 0,
        0, 1, 0, 0, 1, 0, 0, 1] ++ byte_bits_msb (calculate_crc8 [0x48, 0x49])).map
        (fun bit => ⟨if bit = 1 then p.freq_1 else p.freq_0, p.bit_duration_ms, n⟩) ∧
      (transmit_data_fsk [0x48, 0x49] p n).length = 32 := by
  have hcrc : calculate_crc8 [0x48, 0x49] = 0x0B := by decide
  have hbits : byte_bits_msb 0x0B = [0, 0, 0, 0, 1, 0, 1, 1] := by decide
  have h : transmit_data_fsk [0x48, 0x49] p n =
      ([1, 0, 1, 0, 1, 0, 1, 0,
        0, 1, 0, 0, 1, 0, 0, 0,
        0, 1, 0, 0, 1, 0, 0, 1] ++ byte_bits_msb (calculate_crc8 [0x48, 0x49])).map
        (fun bit => ⟨if bit = 1 then p.freq_1 else p.freq_0, p.bit_duration_ms, n⟩) := by
    rw [hcrc, hbits]
    simp [transmit_data_fsk, transmit_preamble, transmit_bit_fsk,
      generate_tone_calls, byte_bits_msb, h0, h1, hcrc, List.range_succ]
  exact ⟨h, by rw [h]; simp [byte_bits_msb]⟩

/-- Witness for C1 at concrete FSK parameters 8000/8500 Hz, 50 ms, 4 cores. -/
theorem transmit_frame_HI_witness :
    transmit_data_fsk [0x48, 0x49] ⟨8000, 8500, 50⟩ 4 =
      ([1, 0, 1, 0, 1, 0, 1, 0,
        0, 1, 0, 0, 1, 0, 0, 0,
        0, 1, 0, 0, 1, 0, 0, 1] ++ byte_bits_msb (calculate_crc8 [0x48, 0x49])).map
        (fun bit => ⟨if bit = 1 then (8500 : Int) else 8000, 50, 4⟩) ∧
      (transmit_data_fsk [0x48, 0x49] ⟨8000, 8500, 50⟩ 4).length = 32 :=
  transmit_frame_HI ⟨8000, 8500, 50⟩ 4 (by decide) (by decide)

/-- C7: Hamming(7,4) round-trips on all 4-bit values, its parity bits obey
`p1 = d1^d2^d4`, `p2 = d1^d3^d4`, `p3 = d2^d3^d4`, and decode corrects any
single flipped bit among the 7 coded bit positions (all 16 x 7 cases). -/
theorem hamming74_roundtrip_and_corrects :
    (∀ n : Fin 16, hamming74_decode (hamming74_encode n.val) = n.val) ∧
    (∀ n : Fin 16,
      (hamming74_encode n.val >>> 0) &&& 1 =
        ((n.val >>> 0) &&& 1) ^^^ ((n.val >>> 1) &&& 1) ^^^ ((n.val >>> 3) &&& 1) ∧
      (hamming74_encode n.val >>> 1) &&& 1 =
        ((n.val >>> 0) &&& 1) ^^^ ((n.val >>> 2) &&& 1) ^^^ ((n.val >>> 3) &&& 1) ∧
      (hamming74_encode n.val >>> 3) &&& 1 =
        ((n.val >>> 1) &&& 1) ^^^ ((n.val >>> 2) &&& 1) ^^^ ((n.val >>> 3) &&& 1)) ∧
    (∀ n : Fin 16, ∀ pos : Fin 7,
      hamming74_decode (hamming74_encode n.val ^^^ 1 <<< pos.val) = n.val) := by
  refine ⟨by decide, by decide, by decide⟩

/-- Helper for C10: `sample_to_cores` stays in `[1, max_cores]` whenever
`max_cores` is at least 1. -/
theorem sample_to_cores_bounds (s : Int) (m : Nat) (hm : 1 ≤ m) :
    1 ≤ sample_to_cores s m ∧ sample_to_cores s m ≤ m := by
  simp only [sample_to_cores]
  split_ifs <;> omega

/-- C10: for every 16-bit signed sample and `max_cores` at least 1,
`sample_to_cores` returns a value in `[1, max_cores]`, so the AM playback
loop always requests at least one and at most `max_cores` active cores. -/
theorem sample_to_cores_in_range :
    ∀ max_cores : Nat, 1 ≤ max_cores →
      (∀ sample : Int, -32768 ≤ sample → sample ≤ 32767 →
        1 ≤ sample_to_cores sample max_cores ∧
          sample_to_cores sample max_cores ≤ max_cores) ∧
      (∀ (samples : List Int) (c : Nat),
        c ∈ play_wav_am_active_counts samples max_cores →
          1 ≤ c ∧ c ≤ max_cores) := by
  intro m hm
  refine ⟨fun s _ _ => sample_to_cores_bounds s m hm, fun samples c hc => ?_⟩
  obtain ⟨s, _, rfl⟩ := List.mem_map.mp hc
  exact sample_to_cores_bounds s m hm

/-- Witness for C10 at the extreme sample -32768 with 4 cores. -/
theorem sample_to_cores_in_range_witness :
    1 ≤ sample_to_cores (-32768) 4 ∧ sample_to_cores (-32768) 4 ≤ 4 :=
  (sample_to_cores_in_range 4 (by decide)).1 (-32768) (by decide) (by decide)

/-- Counterexample for C4 as stated: at the valid frequency 440 Hz with
unit count 0 (outside [1, MAX_CORES]), `generate_tone` does NOT fail
without side effects - it initializes the barriers and writes the timing
globals. -/
theorem generate_tone_unit_count_counterexample :
    ¬ ((generate_tone_run 440 1000 0 (fun _ => 0) 1).rejected = true ∧
       (generate_tone_run 440 1000 0 (fun _ => 0) 1).barriers_created = false ∧
       (generate_tone_run 440 1000 0 (fun _ => 0) 1).cycle_nano = none) := by
  decide

/-- C4 (amended): `generate_tone` validates only the frequency: a frequency
outside [20, 24000] is rejected with no side effect (no barrier, no timing
write, no worker, no tone), while any unit count reaches the barrier
initialization when the frequency is valid; unit counts outside
[1, MAX_CORES] are rejected (exit code 1, no tone) by the CLI entry point
before `generate_tone` is called. -/
theorem generate_tone_parameter_validation :
    (∀ (freq duration_ms num_cores : Int) (elapsed : Nat → Nat) (fuel : Nat),
      validate_frequency freq = false →
      generate_tone_run freq duration_ms num_cores elapsed fuel =
          ⟨true, false, none, none, 0, 0⟩ ∧
        generate_tone_calls freq duration_ms num_cores = []) ∧
    (∀ (freq duration_ms num_cores : Int) (elapsed : Nat → Nat) (fuel : Nat),
      validate_frequency freq = true →
      (generate_tone_run freq duration_ms num_cores elapsed fuel).barriers_created =
        true) ∧
    (∀ freq duration_ms num_cores : Int, num_cores < 1 ∨ 32 < num_cores →
      transmitter_main (.tone freq duration_ms num_cores) = (1, [])) := by
  refine ⟨fun freq d n elapsed fuel h => ?_, fun freq d n elapsed fuel h => ?_,
    fun freq d n h => ?_⟩
  · constructor <;> simp [generate_tone_run, generate_tone_calls, h]
  · simp [generate_tone_run, h]
  · simp [transmitter_main, h]

/-- Witness for C4: rejection at 25000 Hz, barrier initialization at
440 Hz with unit count 0, CLI rejection of unit count 0. -/
theorem generate_tone_parameter_validation_witness :
    (generate_tone_run 25000 1000 4 (fun _ => 0) 1 = ⟨true, false, none, none, 0, 0⟩ ∧
      generate_tone_calls 25000 1000 4 = []) ∧
    (generate_tone_run 440 1000 0 (fun _ => 0) 1).barriers_created = true ∧
    transmitter_main (.tone 440 1000 0) = (1, []) :=
  ⟨generate_tone_parameter_validation.1 25000 1000 4 (fun _ => 0) 1 (by decide),
   generate_tone_parameter_validation.2.1 440 1000 0 (fun _ => 0) 1 (by decide),
   generate_tone_parameter_validation.2.2 440 1000 0 (Or.inl (by decide))⟩

/-- Counterexample for C5 as stated: a `generate_tone` call with duration
0 ms and valid frequency 440 Hz and 2 cores still spawns its 2 workers
(the spawn loop runs before the first duration check). -/
theorem generate_tone_zero_duration_counterexample :
    ¬ ((generate_tone_run 440 0 2 (fun _ => 0) 1).workers_spawned = 0) := by
  decide

/-- C5 (amended): with duration 0 ms and a valid frequency the control
loop performs zero iterations (the first elapsed-time check breaks it, for
every clock reading and fuel), but the call still spawns `num_cores`
workers, which are then stopped before it returns. -/
theorem generate_tone_zero_duration :
    ∀ (freq num_cores : Int) (elapsed : Nat → Nat) (fuel : Nat),
      validate_frequency freq = true →
      (generate_tone_run freq 0 num_cores elapsed fuel).loop_iterations = 0 ∧
        (generate_tone_run freq 0 num_cores elapsed fuel).workers_spawned =
          num_cores.toNat := by
  intro freq n elapsed fuel h
  refine ⟨?_, by simp [generate_tone_run, h]⟩
  simp only [generate_tone_run, h, if_true]
  cases fuel with
  | zero => rfl
  | succ fuel => simp [tone_loop_iters, Int.natCast_nonneg]

/-- Witness for C5 at 440 Hz, 2 cores. -/
theorem generate_tone_zero_duration_witness :
    (generate_tone_run 440 0 2 (fun _ => 0) 1).loop_iterations = 0 ∧
      (generate_tone_run 440 0 2 (fun _ => 0) 1).workers_spawned = (2 : Int).toNat :=
  generate_tone_zero_duration 440 2 (fun _ => 0) 1 (by decide)

/-- C9: evaluation at the failing input `tone 19 1000 1`: the frequency 19
fails validation, yet the process exit code is 0 (the error is only
printed inside `generate_tone`, which returns void), contradicting the
claimed exit code 1 for every argument-validation failure. -/
theorem tone_invalid_frequency_exit_zero :
    transmitter_main (.tone 19 1000 1) = (0, []) ∧ validate_frequency 19 = false := by
  decide

/-- Helper: `(s >>> i) &&& 1` is the indicator of bit `i` of `s`. -/
theorem shiftRight_and_one (s i : Nat) :
    (s >>> i) &&& 1 = if s.testBit i then 1 else 0 := by
  rw [Nat.and_one_is_mod, Nat.testBit_to_div_mod, Nat.shiftRight_eq_div_pow]
  rcases Nat.mod_two_eq_zero_or_one (s / 2 ^ i) with h | h <;> simp [h]

/-- Counterexample for C3 as stated: even for the empty payload the frame
does not begin with a 4-symbol preamble (0xAA,0x55 repeated twice); the
code's preamble loop emits 0xAA,0x55 four times (8 symbols). -/
theorem ofdm_preamble_counterexample :
    transmit_ofdm_frame [] ⟨4, 8000, 200, 100⟩ ≠
      (([0xAA, 0x55, 0xAA, 0x55] ++ ([] : List Nat) ++ [0xFF, 0x00, 0xFF]).map
        (fun s => transmit_ofdm_symbol s ⟨4, 8000, 200, 100⟩)).flatten := by
  decide

/-- C3 (amended): `transmit_ofdm_frame` transmits, in order, an 8-symbol
preamble (0xAA,0x55 repeated four times), exactly one OFDM symbol per
payload byte, and the 3-symbol end marker 0xFF, 0x00, 0xFF, and appends no
CRC; each symbol keys subcarrier `i` on iff bit `i` of its byte is 1, for
`symbol_duration_ms`, followed by a 10 ms guard interval with all
subcarriers disabled. -/
theorem ofdm_frame_trace :
    ∀ (data : List Nat) (p : ofdm_params_t),
      transmit_ofdm_frame data p =
        (([0xAA, 0x55, 0xAA, 0x55, 0xAA, 0x55, 0xAA, 0x55] ++ data ++
            [0xFF, 0x00, 0xFF]).map (fun s => transmit_ofdm_symbol s p)).flatten ∧
      ∀ s : Nat, transmit_ofdm_symbol s p =
        [⟨(List.range (min p.num_subcarriers 8).toNat).map
            (fun i => if s.testBit i then 1 else 0), p.symbol_duration_ms⟩,
         ⟨List.replicate p.num_subcarriers.toNat 0, 10⟩] := by
  intro data p
  constructor
  · simp [transmit_ofdm_frame, List.range_succ]
  · intro s
    have h1 : (List.range (min p.num_subcarriers 8).toNat).map
          (fun i => (s >>> i) &&& 1) =
        (List.range (min p.num_subcarriers 8).toNat).map
          (fun i => if s.testBit i then 1 else 0) :=
      List.map_congr_left (fun i _ => shiftRight_and_one s i)
    have h2 : (List.range p.num_subcarriers.toNat).map (fun _ => (0 : Nat)) =
        List.replicate p.num_subcarriers.toNat 0 := by
      simp [List.map_const']
    rw [transmit_ofdm_symbol, h1, h2]

/-- Helper: decoding the two encoded bytes of any byte recovers it. -/
theorem manchester_pair_roundtrip : ∀ b < 256,
    manchester_decode_pair ((manchester_encode_bits b 8 0 >>> 8) &&& 0xFF)
      (manchester_encode_bits b 8 0 &&& 0xFF) = some b := by decide

/-- Helper: Manchester encoding doubles the length. -/
theorem manchester_encode_length (x : List Nat) :
    (manchester_encode x).length = 2 * x.length := by
  induction x with
  | nil => rfl
  | cons b rest ih =>
    simp only [manchester_encode, List.map_cons, List.flatten_cons,
      List.length_append, List.length_cons] at ih ⊢
    simp only [manchester_encode_byte, List.length_cons, List.length_nil]
    omega

/-- Helper: the pair-decoding loop inverts encoding on byte sequences. -/
theorem manchester_go_encode : ∀ x : List Nat, (∀ b ∈ x, b < 256) →
    manchester_decode_go (manchester_encode x) = some x := by
  intro x
  induction x with
  | nil => intro _; rfl
  | cons b rest ih =>
    intro hb
    have hblt : b < 256 := hb b (List.mem_cons_self b rest)
    have hrest := ih (fun y hy => hb y (List.mem_cons_of_mem b hy))
    simp only [manchester_encode, List.map_cons, List.flatten_cons,
      manchester_encode_byte, List.cons_append, List.nil_append]
    rw [manchester_decode_go, manchester_pair_roundtrip b hblt]
    simp only [manchester_encode] at hrest
    rw [hrest]

/-- Helper: the bit-decoding loop fails whenever some remaining 2-bit
symbol is neither `10` nor `01`. -/
theorem manchester_decode_bits_none : ∀ (encoded r acc : Nat),
    (∃ k, k < r ∧ (encoded >>> (2 * k)) &&& 3 ≠ 2 ∧ (encoded >>> (2 * k)) &&& 3 ≠ 1) →
    manchester_decode_bits encoded r acc = none := by
  intro encoded r
  induction r with
  | zero =>
    intro acc h
    obtain ⟨k, hk, _⟩ := h
    exact absurd hk (Nat.not_lt_zero k)
  | succ r ih =>
    intro acc h
    obtain ⟨k, hk, h2, h1⟩ := h
    rw [manchester_decode_bits]
    by_cases e2 : (encoded >>> (2 * r)) &&& 3 = 2
    · rw [if_pos e2]
      apply ih
      have hkr : k ≠ r := fun hkr => h2 (hkr ▸ e2)
      exact ⟨k, by omega, h2, h1⟩
    · rw [if_neg e2]
      by_cases e1 : (encoded >>> (2 * r)) &&& 3 = 1
      · rw [if_pos e1]
        apply ih
        have hkr : k ≠ r := fun hkr => h1 (hkr ▸ e1)
        exact ⟨k, by omega, h2, h1⟩
      · rw [if_neg e1]

/-- Helper: the pair-decoding loop fails whenever some pair of input bytes
contains a 2-bit symbol other than `10`/`01`. -/
theorem manchester_go_none_of_bad : ∀ input : List Nat,
    (∃ i, 2 * i + 1 < input.length ∧ ∃ k, k < 8 ∧
      ((input.getD (2 * i) 0 <<< 8 ||| input.getD (2 * i + 1) 0) >>> (2 * k)) &&& 3 ≠ 2 ∧
      ((input.getD (2 * i) 0 <<< 8 ||| input.getD (2 * i + 1) 0) >>> (2 * k)) &&& 3 ≠ 1) →
    manchester_decode_go input = none := by
  intro input
  induction input using manchester_decode_go.induct with
  | case1 =>
    intro h
    obtain ⟨i, hlen, _⟩ := h
    simp at hlen
  | case2 x =>
    intro _
    rfl
  | case3 hi lo rest hpair =>
    intro _
    rw [manchester_decode_go, hpair]
  | case4 hi lo rest d hpair hgo ih =>
    intro _
    rw [manchester_decode_go, hpair, hgo]
  | case5 hi lo rest d hpair ds hgo ih =>
    intro h
    exfalso
    obtain ⟨i, hlen, k, hk, h2, h1⟩ := h
    cases i with
    | zero =>
      have g1 : (hi :: lo :: rest).getD (2 * 0) 0 = hi := rfl
      have g2 : (hi :: lo :: rest).getD (2 * 0 + 1) 0 = lo := rfl
      rw [g1, g2] at h2 h1
      have hnone : manchester_decode_pair hi lo = none :=
        manchester_decode_bits_none _ 8 0 ⟨k, hk, h2, h1⟩
      rw [hpair] at hnone
      exact Option.noConfusion hnone
    | succ j =>
      have g1 : (hi :: lo :: rest).getD (2 * (j + 1)) 0 = rest.getD (2 * j) 0 := by
        rw [show 2 * (j + 1) = 2 * j + 1 + 1 from by ring, List.getD_cons_succ,
          List.getD_cons_succ]
      have g2 : (hi :: lo :: rest).getD (2 * (j + 1) + 1) 0 =
          rest.getD (2 * j + 1) 0 := by
        rw [List.getD_cons_succ, show 2 * (j + 1) = 2 * j + 1 + 1 from by ring,
          List.getD_cons_succ]
      rw [g1, g2] at h2 h1
      have hnone : manchester_decode_go rest = none := by
        apply ih
        refine ⟨j, ?_, k, hk, h2, h1⟩
        simp only [List.length_cons] at hlen
        omega
      rw [hgo] at hnone
      exact Option.noConfusion hnone

/-- C8: Manchester round-trip: decoding an encoding recovers every byte
sequence; encoded output length is exactly twice the input length; decoding
an odd-length input fails; decoding an even-length input containing a
2-bit symbol other than `01`/`10` fails. -/
theorem manchester_roundtrip_and_errors :
    (∀ x : List Nat, (∀ b ∈ x, b < 256) →
      manchester_decode (manchester_encode x) = some x) ∧
    (∀ x : List Nat, (manchester_encode x).length = 2 * x.length) ∧
    (∀ input : List Nat, input.length % 2 = 1 → manchester_decode input = none) ∧
    (∀ input : List Nat, input.length % 2 = 0 →
      (∃ i, 2 * i + 1 < input.length ∧ ∃ k, k < 8 ∧
        ((input.getD (2 * i) 0 <<< 8 ||| input.getD (2 * i + 1) 0) >>> (2 * k)) &&& 3 ≠ 2 ∧
        ((input.getD (2 * i) 0 <<< 8 ||| input.getD (2 * i + 1) 0) >>> (2 * k)) &&& 3 ≠ 1) →
      manchester_decode input = none) := by
  refine ⟨fun x hx => ?_, manchester_encode_length, fun input hodd => ?_,
    fun input heven hbad => ?_⟩
  · rw [manchester_decode]
    rw [if_neg (by rw [manchester_encode_length]; omega)]
    exact manchester_go_encode x hx
  · rw [manchester_decode, if_pos (by omega)]
  · rw [manchester_decode, if_neg (by omega)]
    exact manchester_go_none_of_bad input hbad

/-- Witness for C8: round-trip of "HI", failure on an odd-length input,
failure on the all-ones symbol stream. -/
theorem manchester_roundtrip_and_errors_witness :
    manchester_decode (manchester_encode [0x48, 0x49]) = some [0x48, 0x49] ∧
      manchester_decode [0xAB] = none ∧
      manchester_decode [0xFF, 0xFF] = none :=
  ⟨manchester_roundtrip_and_errors.1 [0x48, 0x49] (by decide),
   manchester_roundtrip_and_errors.2.2.1 [0xAB] (by decide),
   manchester_roundtrip_and_errors.2.2.2 [0xFF, 0xFF] (by decide)
     ⟨0, by decide, 0, by decide, by decide, by decide⟩⟩
